import Mathlib

/-!
Shallow embedding of the tic-tac-toe game logic from
`src/tic-tac-toe/src/components/board.tsx` (the `Game` component) and the
theme-selection helper `getInitialTheme`.

Modelling conventions:
* a cell `"X" | "O" | null` becomes `Option Mark`; a JavaScript array read
  `squares[i]` out of bounds yields `undefined`, which behaves like `null`
  in every guard and comparison the source performs, so both are `none`;
* `squares` is a `List Cell`; in the running program it always has length 9;
* a JavaScript array write `nextSquares[i] = v` with `i` at or past the
  length extends the array (holes read back as `undefined`, modelled `none`);
* the browser environment of `getInitialTheme` (`localStorage` and
  `window.matchMedia`) is passed in as explicit values.
-/

namespace TicTacToe

/-- The two player symbols `"X"` and `"O"`. -/
inductive Mark where
  | X : Mark
  | O : Mark
deriving DecidableEq, Repr, Fintype

/-- A cell of the board: `"X" | "O" | null`, with `none` for `null`. -/
abbrev Cell := Option Mark

/-- The `squares` array. -/
abbrev Board := List Cell

/-- Read `squares[i]`: out-of-range reads give `undefined`, modelled `none`. -/
def cellAt (squares : Board) (i : Nat) : Cell :=
  squares.getD i none

/-- The `lines` constant of `calculateWinner`: 3 rows, 3 columns, 2 diagonals. -/
def lines : List (Nat × Nat × Nat) :=
  [(0, 1, 2), (3, 4, 5), (6, 7, 8),
   (0, 3, 6), (1, 4, 7), (2, 5, 8),
   (0, 4, 8), (2, 4, 6)]

/-- One iteration of the loop body of `calculateWinner`: for a line
`[a, b, c]`, if `squares[a]` is truthy and strictly equal to `squares[b]`
and to `squares[c]`, the result is `squares[a]`, otherwise the loop
continues (`none`). -/
def winnerOfLine (squares : Board) (l : Nat × Nat × Nat) : Option Mark :=
  match cellAt squares l.1 with
  | none => none
  | some m =>
    if cellAt squares l.2.1 = some m ∧ cellAt squares l.2.2 = some m then
      some m
    else
      none

/-- `calculateWinner`: scan `lines` in order and return the first match,
`null` (`none`) when no line matches. -/
def calculateWinner (squares : Board) : Option Mark :=
  lines.findSome? (winnerOfLine squares)

/-- A JavaScript array write `a[i] = v`: in-range writes replace the cell,
writes at or past the length extend the array, holes reading as `none`. -/
def setCell (squares : Board) (i : Nat) (v : Cell) : Board :=
  if i < squares.length then
    squares.set i v
  else
    squares ++ List.replicate (i - squares.length) none ++ [v]

/-- `handleClick(i)` of the `Game` component, as a state transformer on the
pair (`squares`, `isXNext`): if `squares[i]` is truthy or
`calculateWinner(squares)` is truthy it returns unchanged state, otherwise
it writes `isXNext ? "X" : "O"` into cell `i` and flips `isXNext`. -/
def handleClick (squares : Board) (isXNext : Bool) (i : Nat) : Board × Bool :=
  if (cellAt squares i).isSome ∨ (calculateWinner squares).isSome then
    (squares, isXNext)
  else
    (setCell squares i (some (if isXNext then Mark.X else Mark.O)), !isXNext)

/-- `restartGame`: `setSquares(Array(9).fill(null)); setIsXNext(true)`. -/
def restartGame : Board × Bool :=
  (List.replicate 9 none, true)

/-- The initial state of the `Game` component:
`useState(Array(9).fill(null))` and `useState(true)`. -/
def initState : Board × Bool :=
  (List.replicate 9 none, true)

/-- The derived `isDraw` value: `squares.every(Boolean) && !winner`. -/
def isDraw (squares : Board) : Bool :=
  squares.all (fun c => c.isSome) && (calculateWinner squares).isNone

/-- The derived game outcome as the specification names it. -/
inductive Outcome where
  | InProgress : Outcome
  | Win : Mark → Outcome
  | Draw : Outcome
deriving DecidableEq, Repr

/-- The outcome the component derives from `squares`: `Win` when
`calculateWinner` found a winner, else `Draw` when every cell is occupied,
else `InProgress`. -/
def outcome (squares : Board) : Outcome :=
  match calculateWinner squares with
  | some m => Outcome.Win m
  | none =>
    if squares.all (fun c => c.isSome) then Outcome.Draw
    else Outcome.InProgress

/-- A win line `[a, b, c]` whose three referenced cells all hold `m`. -/
def lineFilledWith (squares : Board) (m : Mark) (l : Nat × Nat × Nat) : Prop :=
  cellAt squares l.1 = some m ∧ cellAt squares l.2.1 = some m ∧
    cellAt squares l.2.2 = some m

instance (squares : Board) (m : Mark) (l : Nat × Nat × Nat) :
    Decidable (lineFilledWith squares m l) := by
  unfold lineFilledWith; infer_instance

/-- States reachable from the initial empty board via `handleClick` with an
index produced by the board UI (0–8) and via `restartGame`. -/
inductive Reachable : Board → Bool → Prop where
  | init : Reachable (List.replicate 9 none) true
  | move (squares : Board) (t : Bool) (i : Nat) (hi : i < 9)
      (h : Reachable squares t) :
      Reachable (handleClick squares t i).1 (handleClick squares t i).2
  | reset (squares : Board) (t : Bool) (h : Reachable squares t) :
      Reachable (List.replicate 9 none) true

/-- Number of cells of `squares` holding mark `m`. -/
def countMark (m : Mark) (squares : Board) : Nat :=
  squares.countP (fun c => c = some m)

/-- The component state of `Game` that the derived values are computed
from: `squares`, `isXNext`, `theme`, `themeDialogOpen`. -/
structure GameState where
  squares : Board
  isXNext : Bool
  theme : String
  themeDialogOpen : Bool

/-- The `winner` derived value, computed from the component state. -/
def winnerOf (s : GameState) : Option Mark :=
  calculateWinner s.squares

/-- The `isDraw` derived value, computed from the component state. -/
def isDrawOf (s : GameState) : Bool :=
  isDraw s.squares

/-- The `THEMES` constant. -/
def THEMES : List String :=
  ["light", "dark", "ocean", "forest", "sunset", "lavender"]

/-- `getInitialTheme`. `stored` is `localStorage.getItem("theme")`
(`none` for `null`); `matchMediaDark` is `some d` when
`window.matchMedia("(prefers-color-scheme: dark)").matches` evaluates to
`d`, and `none` when `matchMedia` is unavailable or throws (the optional
chaining / `catch` paths). A stored empty string is falsy and skips the
first guard, exactly as in the source. -/
def getInitialTheme (stored : Option String) (matchMediaDark : Option Bool) :
    String :=
  match stored with
  | some s =>
    if s ≠ "" ∧ s ∈ THEMES then s
    else if matchMediaDark = some true then "dark" else "light"
  | none =>
    if matchMediaDark = some true then "dark" else "light"

/-- The full drawn board of the specification scenario
A:0, B:1, A:2, B:4, A:3, B:5, A:7, B:6, A:8: no three-in-a-row, all cells
occupied. -/
def drawBoard : Board :=
  [some Mark.X, some Mark.O, some Mark.X,
   some Mark.X, some Mark.O, some Mark.O,
   some Mark.O, some Mark.X, some Mark.X]

/-- A board, unreachable by legal play, on which both marks have a
completed win line: `X` owns row `[0, 1, 2]` and `O` owns row `[6, 7, 8]`. -/
def doubleWinBoard : Board :=
  [some Mark.X, some Mark.X, some Mark.X,
   none, none, none,
   some Mark.O, some Mark.O, some Mark.O]

/-- A board with a single `X` placed in cell 0. -/
def oneMoveBoard : Board :=
  (List.replicate 9 (none : Cell)).set 0 (some Mark.X)

section Helpers

/-- The loop body finds `m` on line `l` exactly when all three cells of `l`
hold `m`. -/
theorem winnerOfLine_eq_some_iff (b : Board) (l : Nat × Nat × Nat) (m : Mark) :
    winnerOfLine b l = some m ↔ lineFilledWith b m l := by
  unfold winnerOfLine lineFilledWith
  cases h : cellAt b l.1 with
  | none => simp [h]
  | some m' =>
    by_cases h2 : cellAt b l.2.1 = some m' ∧ cellAt b l.2.2 = some m'
    · simp only [if_pos h2, Option.some.injEq]
      constructor
      · rintro rfl; exact ⟨rfl, h2.1, h2.2⟩
      · rintro ⟨hm, _, _⟩; exact hm
    · simp only [if_neg h2]
      constructor
      · rintro h3; cases h3
      · rintro ⟨hm, hb, hc⟩
        obtain rfl : m' = m := Option.some.inj hm
        exact absurd ⟨hb, hc⟩ h2

/-- The loop body yields `none` on line `l` exactly when no mark fills `l`. -/
theorem winnerOfLine_eq_none_iff (b : Board) (l : Nat × Nat × Nat) :
    winnerOfLine b l = none ↔ ∀ m, ¬ lineFilledWith b m l := by
  constructor
  · intro h m hf
    have := (winnerOfLine_eq_some_iff b l m).2 hf
    rw [h] at this
    cases this
  · intro h
    cases hw : winnerOfLine b l with
    | none => rfl
    | some m => exact absurd ((winnerOfLine_eq_some_iff b l m).1 hw) (h m)

/-- `calculateWinner` returns `null` exactly when no line is filled by a
single mark. -/
theorem calculateWinner_eq_none_iff (b : Board) :
    calculateWinner b = none ↔ ∀ l ∈ lines, ∀ m, ¬ lineFilledWith b m l := by
  unfold calculateWinner
  rw [List.findSome?_eq_none_iff]
  constructor
  · intro h l hl
    exact (winnerOfLine_eq_none_iff b l).1 (h l hl)
  · intro h l hl
    exact (winnerOfLine_eq_none_iff b l).2 (h l hl)

/-- When `calculateWinner` reports `m`, some win line is filled with `m`. -/
theorem calculateWinner_eq_some_filled (b : Board) (m : Mark)
    (h : calculateWinner b = some m) : ∃ l ∈ lines, lineFilledWith b m l := by
  obtain ⟨l, hl, hw⟩ := List.exists_of_findSome?_eq_some h
  exact ⟨l, hl, (winnerOfLine_eq_some_iff b l m).1 hw⟩

/-- A filled win line forces `calculateWinner` to report some winner. -/
theorem calculateWinner_isSome_of_filled (b : Board) (m : Mark)
    (l : Nat × Nat × Nat) (hl : l ∈ lines) (hf : lineFilledWith b m l) :
    (calculateWinner b).isSome := by
  cases hw : calculateWinner b with
  | none => exact absurd hf ((calculateWinner_eq_none_iff b).1 hw l hl m)
  | some _ => rfl

/-- Reading back the cell just written, for an in-range write. -/
theorem cellAt_set_self (b : Board) (i : Nat) (v : Cell) (hi : i < b.length) :
    cellAt (b.set i v) i = v := by
  unfold cellAt
  rw [List.getD_eq_getElem?_getD, List.getElem?_set_self hi]
  rfl

/-- Reading any other cell after a write. -/
theorem cellAt_set_ne (b : Board) (i j : Nat) (v : Cell) (hij : i ≠ j) :
    cellAt (b.set i v) j = cellAt b j := by
  unfold cellAt
  rw [List.getD_eq_getElem?_getD, List.getD_eq_getElem?_getD,
    List.getElem?_set_ne hij]

/-- An in-range JavaScript array write is `List.set`. -/
theorem setCell_of_lt (b : Board) (i : Nat) (v : Cell) (hi : i < b.length) :
    setCell b i v = b.set i v := by
  unfold setCell
  exact if_pos hi

/-- `squares.every(Boolean)` says every in-range read is occupied. -/
theorem all_isSome_iff_cellAt (b : Board) :
    b.all (fun c => c.isSome) = true ↔
      ∀ i, i < b.length → (cellAt b i).isSome := by
  rw [List.all_eq_true]
  constructor
  · intro h i hi
    have hm : b[i] ∈ b := List.getElem_mem hi
    have := h _ hm
    unfold cellAt
    rw [List.getD_eq_getElem?_getD, List.getElem?_eq_getElem hi]
    exact this
  · intro h x hx
    obtain ⟨n, hn, rfl⟩ := List.mem_iff_getElem.1 hx
    have := h n hn
    unfold cellAt at this
    rw [List.getD_eq_getElem?_getD, List.getElem?_eq_getElem hn] at this
    exact this

/-- Every call of `handleClick` either leaves the state unchanged (the
guard fired), or the guard found the cell empty and no winner and the call
wrote the current mark and flipped the turn. -/
theorem handleClick_cases (b : Board) (t : Bool) (i : Nat) :
    handleClick b t i = (b, t) ∨
      (cellAt b i = none ∧ calculateWinner b = none ∧
        handleClick b t i =
          (setCell b i (some (if t then Mark.X else Mark.O)), !t)) := by
  unfold handleClick
  split
  · exact Or.inl rfl
  · rename_i h
    push_neg at h
    obtain ⟨h1, h2⟩ := h
    exact Or.inr ⟨Option.not_isSome_iff_eq_none.1 (by simpa using h1),
      Option.not_isSome_iff_eq_none.1 (by simpa using h2), rfl⟩

/-- First-match characterisation of `List.findSome?`, matching the early
return of the `for` loop in `calculateWinner`. -/
theorem findSome?_eq_some_iff_first {α β : Type} (f : α → Option β)
    (L : List α) (d : α) (m : β) :
    L.findSome? f = some m ↔
      ∃ k, k < L.length ∧ f (L.getD k d) = some m ∧
        ∀ j, j < k → f (L.getD j d) = none := by
  induction L with
  | nil => simp
  | cons a as ih =>
    rw [List.findSome?_cons]
    cases ha : f a with
    | some b =>
      simp only [Option.some.injEq]
      constructor
      · rintro rfl
        refine ⟨0, Nat.succ_pos _, ?_, fun j hj => absurd hj (Nat.not_lt_zero j)⟩
        rw [List.getD_cons_zero, ha]
      · rintro ⟨k, hk, hfk, hprev⟩
        cases k with
        | zero =>
          rw [List.getD_cons_zero, ha] at hfk
          exact Option.some.inj hfk
        | succ k' =>
          have h0 := hprev 0 (Nat.succ_pos _)
          rw [List.getD_cons_zero, ha] at h0
          cases h0
    | none =>
      rw [ih]
      constructor
      · rintro ⟨k, hk, hfk, hprev⟩
        refine ⟨k + 1, Nat.succ_lt_succ hk, ?_, ?_⟩
        · rw [List.getD_cons_succ]; exact hfk
        · intro j hj
          cases j with
          | zero => rw [List.getD_cons_zero]; exact ha
          | succ j' =>
            rw [List.getD_cons_succ]
            exact hprev j' (Nat.lt_of_succ_lt_succ hj)
      · rintro ⟨k, hk, hfk, hprev⟩
        cases k with
        | zero =>
          rw [List.getD_cons_zero, ha] at hfk
          cases hfk
        | succ k' =>
          refine ⟨k', Nat.lt_of_succ_lt_succ hk, ?_, ?_⟩
          · rw [List.getD_cons_succ] at hfk; exact hfk
          · intro j hj
            have := hprev (j + 1) (Nat.succ_lt_succ hj)
            rw [List.getD_cons_succ] at this
            exact this

/-- On a board with no filled line, a single write of `mk` can only produce
lines filled with `mk` itself. -/
theorem filled_set_forces_mark (b : Board) (i : Nat) (mk m : Mark)
    (l : Nat × Nat × Nat)
    (hnone : ∀ l' ∈ lines, ∀ m', ¬ lineFilledWith b m' l') (hl : l ∈ lines)
    (hf : lineFilledWith (b.set i (some mk)) m l) : m = mk := by
  by_cases hlen : i < b.length
  · by_cases hi : i = l.1 ∨ i = l.2.1 ∨ i = l.2.2
    · have hcell : cellAt (b.set i (some mk)) i = some mk :=
        cellAt_set_self b i _ hlen
      obtain ⟨h1, h2, h3⟩ := hf
      rcases hi with h | h | h
      · rw [← h, hcell] at h1; exact (Option.some.inj h1).symm
      · rw [← h, hcell] at h2; exact (Option.some.inj h2).symm
      · rw [← h, hcell] at h3; exact (Option.some.inj h3).symm
    · push_neg at hi
      obtain ⟨h1, h2, h3⟩ := hf
      rw [cellAt_set_ne b i _ _ hi.1] at h1
      rw [cellAt_set_ne b i _ _ hi.2.1] at h2
      rw [cellAt_set_ne b i _ _ hi.2.2] at h3
      exact absurd ⟨h1, h2, h3⟩ (hnone l hl m)
  · rw [List.set_eq_of_length_le (Nat.le_of_not_lt hlen)] at hf
    exact absurd hf (hnone l hl m)

/-- Writing a mark into an empty in-range cell adds exactly one to the count
of that mark and leaves the other count unchanged. -/
theorem countMark_set_empty (b : Board) (i : Nat) (mk m : Mark)
    (hi : i < b.length) (hc : cellAt b i = none) :
    countMark m (b.set i (some mk)) =
      countMark m b + if mk = m then 1 else 0 := by
  unfold countMark
  rw [List.countP_set _ _ _ _ hi]
  have hbi : b[i] = (none : Cell) := by
    unfold cellAt at hc
    rw [List.getD_eq_getElem?_getD, List.getElem?_eq_getElem hi] at hc
    simpa using hc
  rw [hbi]
  simp

/-- The inductive invariant of every reachable state: the board has 9
cells, the turn flag determines the difference of the two mark counts, and
no two distinct marks both own a filled line. -/
theorem reachable_invariants (b : Board) (t : Bool) (h : Reachable b t) :
    b.length = 9 ∧
      (t = true → countMark Mark.X b = countMark Mark.O b) ∧
      (t = false → countMark Mark.X b = countMark Mark.O b + 1) ∧
      ¬((∃ l ∈ lines, lineFilledWith b Mark.X l) ∧
        ∃ l ∈ lines, lineFilledWith b Mark.O l) := by
  induction h with
  | init =>
    exact ⟨by simp, fun _ => rfl, fun hf => absurd hf (by decide), by decide⟩
  | reset squares t h ih =>
    exact ⟨by simp, fun _ => rfl, fun hf => absurd hf (by decide), by decide⟩
  | move squares t i hi h ih =>
    obtain ⟨hlen, hT, hF, hND⟩ := ih
    rcases handleClick_cases squares t i with heq | ⟨hc, hw, heq⟩
    · rw [heq]
      exact ⟨hlen, hT, hF, hND⟩
    · rw [heq]
      have hilen : i < squares.length := hlen ▸ hi
      rw [setCell_of_lt _ _ _ hilen]
      have hnone := (calculateWinner_eq_none_iff squares).1 hw
      refine ⟨by rw [List.length_set]; exact hlen, ?_, ?_, ?_⟩
      · intro hnt
        have ht : t = false := by
          cases t
          · rfl
          · simp at hnt
        subst ht
        rw [countMark_set_empty squares i _ _ hilen hc,
          countMark_set_empty squares i _ _ hilen hc]
        simp [hF rfl]
      · intro hnt
        have ht : t = true := by
          cases t
          · simp at hnt
          · rfl
        subst ht
        rw [countMark_set_empty squares i _ _ hilen hc,
          countMark_set_empty squares i _ _ hilen hc]
        simp [hT rfl]
      · rintro ⟨⟨lx, hlx, hfx⟩, lo, hlo, hfo⟩
        have hx := filled_set_forces_mark squares i _ Mark.X lx hnone hlx hfx
        have ho := filled_set_forces_mark squares i _ Mark.O lo hnone hlo hfo
        exact Mark.noConfusion (hx.trans ho.symm)

/-- The derived status is `Winner` exactly when `calculateWinner` found
that mark. -/
theorem outcome_win_iff (b : Board) (m : Mark) :
    outcome b = Outcome.Win m ↔ calculateWinner b = some m := by
  cases hcw : calculateWinner b with
  | some m' => simp [outcome, hcw]
  | none =>
    simp only [outcome, hcw]
    split <;> simp

/-- The derived status is a draw exactly when no winner exists and every
cell is occupied. -/
theorem outcome_draw_iff (b : Board) :
    outcome b = Outcome.Draw ↔
      calculateWinner b = none ∧ b.all (fun c => c.isSome) = true := by
  cases hcw : calculateWinner b with
  | some m' => simp [outcome, hcw]
  | none =>
    simp only [outcome, hcw]
    split
    · rename_i hall; simp [hall]
    · rename_i hall; simp [hall]

/-- The derived status is in-progress exactly when no winner exists and
some cell is still empty. -/
theorem outcome_inprogress_iff (b : Board) :
    outcome b = Outcome.InProgress ↔
      calculateWinner b = none ∧ b.all (fun c => c.isSome) = false := by
  cases hcw : calculateWinner b with
  | some m' => simp [outcome, hcw]
  | none =>
    simp only [outcome, hcw]
    split
    · rename_i hall; simp [hall]
    · rename_i hall; simp [hall]

end Helpers

/-- C1 (counterexample): the claim says a move with an index outside 0–8
is always rejected as a no-op. On the empty in-progress board, index 9 is
outside 0–8, yet `handleClick` changes the state: the guard only tests
`squares[9]` (an out-of-range read, `undefined`, hence falsy) and the
winner, so the call writes a tenth cell and flips the turn. -/
theorem claim_C1_counterexample :
    outcome (List.replicate 9 (none : Cell)) = Outcome.InProgress ∧
    ¬(9 : Nat) < 9 ∧
    handleClick (List.replicate 9 (none : Cell)) true 9 ≠
      (List.replicate 9 (none : Cell), true) := by
  decide

/-- C1 (amended): `handleClick` is a no-op exactly in the cases its guard
tests — the target read is occupied or a winner exists. In particular, for
every in-range index 0–8 on a 9-cell board whose outcome is not
in-progress, the call leaves board and turn untouched. Out-of-range
indices are not range-checked. -/
theorem claim_C1 (b : Board) (t : Bool) (i : Nat) :
    ((cellAt b i).isSome ∨ (calculateWinner b).isSome →
      handleClick b t i = (b, t)) ∧
    (b.length = 9 → i < 9 → outcome b ≠ Outcome.InProgress →
      handleClick b t i = (b, t)) := by
  constructor
  · intro h
    unfold handleClick
    rw [if_pos h]
  · intro hlen hi hout
    rcases handleClick_cases b t i with heq | ⟨hc, hw, heq⟩
    · exact heq
    · exfalso
      apply hout
      rw [outcome_inprogress_iff]
      refine ⟨hw, ?_⟩
      cases hv : b.all (fun c => c.isSome) with
      | false => rfl
      | true =>
        have := (all_isSome_iff_cellAt b).1 hv i (by rw [hlen]; exact hi)
        rw [hc] at this
        cases this

/-- C1 (witness): a concrete rejected call, cell 0 already occupied. -/
theorem claim_C1_witness :
    handleClick oneMoveBoard true 0 = (oneMoveBoard, true) :=
  (claim_C1 oneMoveBoard true 0).1 (Or.inl (by decide))

/-- C2: on a 9-cell in-progress board, clicking an empty in-range cell
writes the mark of the current turn into exactly that cell, leaves every
other cell unchanged, and flips the turn, so consecutive successful calls
strictly alternate the turn. -/
theorem claim_C2 (b : Board) (t : Bool) (i : Nat) (hb : b.length = 9)
    (hi : i < 9) (hempty : cellAt b i = none)
    (hprog : outcome b = Outcome.InProgress) :
    handleClick b t i = (b.set i (some (if t then Mark.X else Mark.O)), !t) ∧
    cellAt (handleClick b t i).1 i = some (if t then Mark.X else Mark.O) ∧
    (∀ j, j ≠ i → cellAt (handleClick b t i).1 j = cellAt b j) ∧
    (handleClick b t i).2 = !t := by
  have hw : calculateWinner b = none := ((outcome_inprogress_iff b).1 hprog).1
  have hilen : i < b.length := by rw [hb]; exact hi
  have hg : ¬((cellAt b i).isSome ∨ (calculateWinner b).isSome) := by
    rw [hempty, hw]
    simp
  have heq :
      handleClick b t i = (b.set i (some (if t then Mark.X else Mark.O)), !t) := by
    unfold handleClick
    rw [if_neg hg, setCell_of_lt _ _ _ hilen]
  refine ⟨heq, ?_, ?_, ?_⟩
  · rw [heq]
    exact cellAt_set_self b i _ hilen
  · intro j hj
    rw [heq]
    exact cellAt_set_ne b i j _ (Ne.symm hj)
  · rw [heq]

/-- C2 (witness): the first move of a game, X into the centre cell. -/
theorem claim_C2_witness :
    handleClick (List.replicate 9 (none : Cell)) true 4 =
      ((List.replicate 9 (none : Cell)).set 4 (some Mark.X), false) := by
  have h := claim_C2 (List.replicate 9 (none : Cell)) true 4 (by decide)
    (by decide) (by decide) (by decide)
  exact h.1

/-- C3: on a 9-cell board the derived outcome is a win exactly when one of
the 8 fixed lines is uniformly filled with a non-empty mark (and the
reported mark fills such a line), a draw exactly when no line is filled
and all 9 cells are occupied, and in-progress exactly when no line is
filled and some cell is empty. -/
theorem claim_C3 (b : Board) (hb : b.length = 9) :
    ((∃ m, outcome b = Outcome.Win m) ↔
      ∃ l ∈ lines, ∃ m, lineFilledWith b m l) ∧
    (∀ m, outcome b = Outcome.Win m → ∃ l ∈ lines, lineFilledWith b m l) ∧
    (outcome b = Outcome.Draw ↔
      (∀ l ∈ lines, ∀ m, ¬ lineFilledWith b m l) ∧
        ∀ i, i < 9 → (cellAt b i).isSome) ∧
    (outcome b = Outcome.InProgress ↔
      (∀ l ∈ lines, ∀ m, ¬ lineFilledWith b m l) ∧
        ∃ i, i < 9 ∧ cellAt b i = none) := by
  have hall9 : (b.all (fun c => c.isSome) = true) ↔
      ∀ i, i < 9 → (cellAt b i).isSome := by
    rw [all_isSome_iff_cellAt, hb]
  refine ⟨?_, ?_, ?_, ?_⟩
  · constructor
    · rintro ⟨m, hm⟩
      obtain ⟨l, hl, hf⟩ :=
        calculateWinner_eq_some_filled b m ((outcome_win_iff b m).1 hm)
      exact ⟨l, hl, m, hf⟩
    · rintro ⟨l, hl, m, hf⟩
      obtain ⟨m', hm'⟩ :=
        Option.isSome_iff_exists.1 (calculateWinner_isSome_of_filled b m l hl hf)
      exact ⟨m', (outcome_win_iff b m').2 hm'⟩
  · intro m hm
    exact calculateWinner_eq_some_filled b m ((outcome_win_iff b m).1 hm)
  · rw [outcome_draw_iff, calculateWinner_eq_none_iff, hall9]
  · rw [outcome_inprogress_iff, calculateWinner_eq_none_iff]
    constructor
    · rintro ⟨hn, hall⟩
      refine ⟨hn, ?_⟩
      by_contra hne
      push_neg at hne
      have hx : ∀ i, i < b.length → (cellAt b i).isSome := by
        intro i hi2
        rw [hb] at hi2
        cases hc : cellAt b i with
        | none => exact absurd hc (hne i hi2)
        | some _ => rfl
      rw [(all_isSome_iff_cellAt b).2 hx] at hall
      cases hall
    · rintro ⟨hn, i, hi2, hempty⟩
      refine ⟨hn, ?_⟩
      cases hv : b.all (fun c => c.isSome) with
      | false => rfl
      | true =>
        have := (all_isSome_iff_cellAt b).1 hv i (by rw [hb]; exact hi2)
        rw [hempty] at this
        cases this

/-- C3 (witness): the specification's full drawn board is reported Draw. -/
theorem claim_C3_witness : outcome drawBoard = Outcome.Draw := by
  have h := claim_C3 drawBoard (by decide)
  exact (h.2.2.1).2 ⟨by decide, by decide⟩

/-- C4 (counterexample): the claim says no move succeeds on a Draw board,
for every index. On the specification's drawn board, index 9 is not
range-checked: `squares[9]` reads `undefined` (falsy) and there is no
winner, so `handleClick` appends a tenth cell and flips the turn. -/
theorem claim_C4_counterexample :
    outcome drawBoard = Outcome.Draw ∧
    handleClick drawBoard false 9 ≠ (drawBoard, false) := by
  decide

/-- C4 (amended): a board with a winner is terminal for every index, and a
drawn 9-cell board is terminal for every in-range index 0–8; with an
out-of-range index on a drawn board, the state can still change. -/
theorem claim_C4 (b : Board) (t : Bool) (i : Nat) :
    (∀ m, outcome b = Outcome.Win m → handleClick b t i = (b, t)) ∧
    (b.length = 9 → i < 9 → outcome b = Outcome.Draw →
      handleClick b t i = (b, t)) := by
  constructor
  · intro m hm
    have hw : (calculateWinner b).isSome := by
      rw [(outcome_win_iff b m).1 hm]
      rfl
    unfold handleClick
    rw [if_pos (Or.inr hw)]
  · intro hlen hi hd
    have hall := ((outcome_draw_iff b).1 hd).2
    have hsome : (cellAt b i).isSome :=
      (all_isSome_iff_cellAt b).1 hall i (by rw [hlen]; exact hi)
    unfold handleClick
    rw [if_pos (Or.inl hsome)]

/-- C4 (witness): on a board won by X, clicking the empty cell 3 is
rejected. -/
theorem claim_C4_witness :
    handleClick doubleWinBoard true 3 = (doubleWinBoard, true) :=
  (claim_C4 doubleWinBoard true 3).1 Mark.X (by decide)

/-- C5: every state reachable from the empty board by clicks on in-range
cells (and restarts) has at most one winning mark: any two uniformly
filled win lines carry the same mark, and it is never the case that both
X and O own a filled line. -/
theorem claim_C5 (b : Board) (t : Bool) (h : Reachable b t) :
    (∀ m m' l l', l ∈ lines → l' ∈ lines → lineFilledWith b m l →
      lineFilledWith b m' l' → m = m') ∧
    ¬((∃ l ∈ lines, lineFilledWith b Mark.X l) ∧
      ∃ l ∈ lines, lineFilledWith b Mark.O l) := by
  have hnd := (reachable_invariants b t h).2.2.2
  refine ⟨?_, hnd⟩
  intro m m' l l' hl hl' hf hf'
  cases m with
  | X =>
    cases m' with
    | X => rfl
    | O => exact absurd ⟨⟨l, hl, hf⟩, ⟨l', hl', hf'⟩⟩ hnd
  | O =>
    cases m' with
    | X => exact absurd ⟨⟨l', hl', hf'⟩, ⟨l, hl, hf⟩⟩ hnd
    | O => rfl

/-- C5 (witness): the invariant at the initial empty board. -/
theorem claim_C5_witness :
    ¬((∃ l ∈ lines, lineFilledWith (List.replicate 9 (none : Cell)) Mark.X l) ∧
      ∃ l ∈ lines, lineFilledWith (List.replicate 9 (none : Cell)) Mark.O l) :=
  (claim_C5 (List.replicate 9 (none : Cell)) true Reachable.init).2

/-- C6: in every state reachable from the initial board (X moves first)
via clicks and restarts, the number of X cells minus the number of O cells
is 0 or 1. -/
theorem claim_C6 (b : Board) (t : Bool) (h : Reachable b t) :
    countMark Mark.X b = countMark Mark.O b ∨
      countMark Mark.X b = countMark Mark.O b + 1 := by
  obtain ⟨-, hT, hF, -⟩ := reachable_invariants b t h
  cases t with
  | false => exact Or.inr (hF rfl)
  | true => exact Or.inl (hT rfl)

/-- C6 (witness): the invariant at the initial empty board. -/
theorem claim_C6_witness :
    countMark Mark.X (List.replicate 9 (none : Cell)) =
        countMark Mark.O (List.replicate 9 (none : Cell)) ∨
      countMark Mark.X (List.replicate 9 (none : Cell)) =
        countMark Mark.O (List.replicate 9 (none : Cell)) + 1 :=
  claim_C6 (List.replicate 9 (none : Cell)) true Reachable.init

/-- C7: `restartGame` coincides with the initial state of the component —
an all-empty 9-cell board with X (mark A) to move — independent of any
prior state, since it takes no input. -/
theorem claim_C7 :
    restartGame = initState ∧
    restartGame.1.length = 9 ∧
    restartGame.1.all (fun c => c.isNone) = true ∧
    restartGame.2 = true := by
  decide

/-- C8: the initial theme is the stored preference whenever it is one of
the six recognized names; with no stored value or an unrecognized one, it
is dark exactly when the system reports a dark preference, and light
otherwise (including when `matchMedia` is unavailable or throws). -/
theorem claim_C8 (stored : Option String) (env : Option Bool) :
    (∀ s, stored = some s → s ∈ THEMES → getInitialTheme stored env = s) ∧
    ((stored = none ∨ ∀ s, stored = some s → s ∉ THEMES) →
      getInitialTheme stored env =
        if env = some true then "dark" else "light") := by
  constructor
  · rintro s rfl hs
    have hne : s ≠ "" := by
      intro h
      rw [h] at hs
      simp [THEMES] at hs
    simp only [getInitialTheme]
    rw [if_pos ⟨hne, hs⟩]
  · intro hbad
    cases stored with
    | none => rfl
    | some s =>
      rcases hbad with h | h
      · cases h
      · have hs : s ∉ THEMES := h s rfl
        simp only [getInitialTheme]
        rw [if_neg (fun hcon => hs hcon.2)]

/-- C8 (witness): a recognized stored theme wins over a light system
preference. -/
theorem claim_C8_witness :
    getInitialTheme (some "ocean") (some false) = "ocean" :=
  (claim_C8 (some "ocean") (some false)).1 "ocean" rfl (by decide)

/-- C9: on any 9-cell board, `calculateWinner` returns `null` exactly when
no line is uniformly filled, and returns `m` exactly when some line in the
fixed order rows, columns, diagonals is filled with `m` while every
earlier line is not uniformly filled — deterministic even on unreachable
boards where both marks own lines. -/
theorem claim_C9 (b : Board) (_hb : b.length = 9) :
    (calculateWinner b = none ↔ ∀ l ∈ lines, ∀ m, ¬ lineFilledWith b m l) ∧
    (∀ m, calculateWinner b = some m ↔
      ∃ k, k < lines.length ∧ lineFilledWith b m (lines.getD k (0, 0, 0)) ∧
        ∀ j, j < k → ∀ m', ¬ lineFilledWith b m' (lines.getD j (0, 0, 0))) := by
  refine ⟨calculateWinner_eq_none_iff b, ?_⟩
  intro m
  unfold calculateWinner
  rw [findSome?_eq_some_iff_first (winnerOfLine b) lines (0, 0, 0) m]
  constructor
  · rintro ⟨k, hk, hfk, hprev⟩
    exact ⟨k, hk, (winnerOfLine_eq_some_iff b _ m).1 hfk,
      fun j hj => (winnerOfLine_eq_none_iff b _).1 (hprev j hj)⟩
  · rintro ⟨k, hk, hfk, hprev⟩
    exact ⟨k, hk, (winnerOfLine_eq_some_iff b _ m).2 hfk,
      fun j hj => (winnerOfLine_eq_none_iff b _).2 (hprev j hj)⟩

/-- C9 (witness): on the unreachable board where X owns row `[0, 1, 2]`
and O owns row `[6, 7, 8]`, the first line in the fixed order decides:
the winner is X. -/
theorem claim_C9_witness : calculateWinner doubleWinBoard = some Mark.X := by
  have h := claim_C9 doubleWinBoard (by decide)
  exact (h.2 Mark.X).2
    ⟨0, by decide, by decide, fun j hj => absurd hj (Nat.not_lt_zero j)⟩

/-- C10: the derived winner and draw values are functions of the 9 board
cells alone — two component states with equal `squares` yield equal
results whatever their turn flag, theme, or dialog flag. -/
theorem claim_C10 (s1 s2 : GameState) (h : s1.squares = s2.squares) :
    winnerOf s1 = winnerOf s2 ∧ isDrawOf s1 = isDrawOf s2 := by
  unfold winnerOf isDrawOf isDraw
  rw [h]
  exact ⟨rfl, rfl⟩

/-- C10 (witness): two states sharing the drawn board but differing in
turn, theme, and dialog flag agree on winner and draw. -/
theorem claim_C10_witness :
    winnerOf ⟨drawBoard, true, "light", false⟩ =
        winnerOf ⟨drawBoard, false, "dark", true⟩ ∧
      isDrawOf ⟨drawBoard, true, "light", false⟩ =
        isDrawOf ⟨drawBoard, false, "dark", true⟩ :=
  claim_C10 ⟨drawBoard, true, "light", false⟩
    ⟨drawBoard, false, "dark", true⟩ rfl

end TicTacToe
